import Mathlib

/-!
# Verification of the WeChat article-publishing relay (`api.py`)

This file gives a shallow embedding of the single-endpoint publishing relay:
strings are modelled as `List Char` (Python `str` is a sequence of code
points), the external HTTP collaborators (token endpoint, image hosts,
media-library, draft and publish endpoints) are modelled as oracles whose
outcomes are supplied explicitly, and the handler bodies are translated
function-by-function from the source.

Sections:
 * string primitives: a Boolean prefix test, substring-occurrence test and a
   model of Python `str.replace` (leftmost, non-overlapping, replace-all);
 * decimal rendering of naturals (for the `image{idx}` keys and the
   literal `\x7bimage{idx}\x7d` placeholders);
 * `process_content_images`, `create_draft`, `publish_draft` and the
   `/publish` orchestrator `publish_article` with an explicit call trace;
 * lemmas and one theorem per specification claim.
-/

set_option maxHeartbeats 1000000

/-- Boolean test that the first list is a prefix of the second. -/
def isPrefixL : List Char → List Char → Bool
  | [], _ => true
  | _ :: _, [] => false
  | a :: as, b :: bs => a == b && isPrefixL as bs

/-- Boolean test that `q` occurs as a contiguous substring of `s`. -/
def occursL : List Char → List Char → Bool
  | q, [] => isPrefixL q []
  | q, c :: s => isPrefixL q (c :: s) || occursL q s

/-- Fuel-indexed model of Python `str.replace`: scan left to right; at each
position, if `pat` (nonempty) matches, emit `rep` and skip past the match,
otherwise emit the current character.  Each step consumes at least one
character of `s`, so fuel `s.length` is exact. -/
def replaceF : Nat → List Char → List Char → List Char → List Char
  | 0, s, _, _ => s
  | _ + 1, [], _, _ => []
  | fuel + 1, c :: s, pat, rep =>
    if isPrefixL pat (c :: s) = true ∧ pat.isEmpty = false then
      rep ++ replaceF fuel (List.drop (pat.length - 1) s) pat rep
    else
      c :: replaceF fuel s pat rep

/-- Python `content_html.replace(pat, rep)`: replace every (leftmost,
non-overlapping) occurrence of `pat` in `s` by `rep`. -/
def replaceAll (s pat rep : List Char) : List Char :=
  replaceF s.length s pat rep

/-- Fuel-indexed decimal rendering of a natural number (most significant
digit first), modelling Python `str(idx)`. -/
def natCharsF : Nat → Nat → List Char
  | 0, _ => []
  | fuel + 1, n =>
    if n < 10 then [Nat.digitChar n]
    else natCharsF fuel (n / 10) ++ [Nat.digitChar (n % 10)]

/-- Decimal rendering of a natural number, modelling Python `str(idx)`. -/
def natChars (n : Nat) : List Char := natCharsF (n + 1) n

/-- The characters of the literal `image`. -/
def imageChars : List Char := ['i', 'm', 'a', 'g', 'e']

/-- The content-image placeholder `\x7bimage{idx}\x7d` from
`process_content_images` (source line 93). -/
def placeholderL (n : Nat) : List Char :=
  '\x7b' :: (imageChars ++ (natChars n ++ ['\x7d']))

/-- The mapping key `image{idx}` from `process_content_images`
(source line 100). -/
def keyChars (n : Nat) : List Char := imageChars ++ natChars n

/-- Tail of the fixed WeChat embed tag (everything after the leading `<`). -/
def wechatImgTagTail : List Char :=
  "img data-ratio=\"1.33\" data-src=\"\" data-type=\"jpeg\" data-w=\"1280\" src=\"\"/>".data

/-- The fixed WeChat embed tag substituted for each placeholder
(source line 96).  It is a constant: it does not depend on the index nor on
the uploaded media id. -/
def wechatImgTag : List Char := '<' :: wechatImgTagTail

theorem isPrefixL_length : ∀ {p s : List Char}, isPrefixL p s = true → p.length ≤ s.length
  | [], _, _ => Nat.zero_le _
  | _ :: _, [], h => by simp [isPrefixL] at h
  | a :: as, b :: bs, h => by
    simp only [isPrefixL, Bool.and_eq_true] at h
    simpa [Nat.succ_le_succ_iff] using isPrefixL_length h.2

theorem isPrefixL_append_left (p xs ys : List Char) :
    isPrefixL (p ++ xs) (p ++ ys) = isPrefixL xs ys := by
  induction p with
  | nil => rfl
  | cons a p ih => simp [isPrefixL, ih]

theorem isPrefixL_total : ∀ {a b s : List Char}, isPrefixL a s = true → isPrefixL b s = true →
    isPrefixL a b = true ∨ isPrefixL b a = true
  | [], _, _, _, _ => Or.inl rfl
  | _ :: _, [], _, _, _ => Or.inr rfl
  | a :: as, b :: bs, [], ha, _ => by simp [isPrefixL] at ha
  | a :: as, b :: bs, c :: cs, ha, hb => by
    simp only [isPrefixL, Bool.and_eq_true, beq_iff_eq] at ha hb
    rcases isPrefixL_total ha.2 hb.2 with h | h
    · exact Or.inl (by simp [isPrefixL, ha.1, hb.1, h])
    · exact Or.inr (by simp [isPrefixL, ha.1, hb.1, h])

theorem eq_append_drop_of_isPrefixL : ∀ {p s : List Char}, isPrefixL p s = true →
    s = p ++ List.drop p.length s
  | [], s, _ => rfl
  | _ :: _, [], h => by simp [isPrefixL] at h
  | a :: as, b :: bs, h => by
    simp only [isPrefixL, Bool.and_eq_true, beq_iff_eq] at h
    have := eq_append_drop_of_isPrefixL h.2
    simpa [h.1.symm, List.drop_succ_cons] using congrArg (b :: ·) this

theorem occursL_nil_iff {q : List Char} : occursL q [] = true ↔ q = [] := by
  cases q <;> simp [occursL, isPrefixL]

theorem occursL_of_isPrefixL {q s : List Char} (h : isPrefixL q s = true) :
    occursL q s = true := by
  cases s <;> simp [occursL, h]

theorem occursL_cons_tail {q s : List Char} (c : Char) (h : occursL q s = true) :
    occursL q (c :: s) = true := by
  simp [occursL, h]

theorem occursL_append_right {q t : List Char} (l : List Char) (h : occursL q t = true) :
    occursL q (l ++ t) = true := by
  induction l with
  | nil => simpa using h
  | cons c l ih => exact occursL_cons_tail c ih

theorem occursL_head_notin : ∀ (l : List Char) {q₀ : Char} {q' t : List Char},
    q₀ ∉ l → occursL (q₀ :: q') (l ++ t) = true → occursL (q₀ :: q') t = true
  | [], _, _, _, _, h => h
  | d :: l, q₀, q', t, hn, h => by
    simp only [List.cons_append, occursL, Bool.or_eq_true] at h
    rcases h with h | h
    · exfalso
      simp only [isPrefixL, Bool.and_eq_true, beq_iff_eq] at h
      exact hn (h.1 ▸ List.mem_cons_self d l)
    · exact occursL_head_notin l (fun hm => hn (List.mem_cons_of_mem d hm)) h

theorem occursL_length : ∀ {q s : List Char}, occursL q s = true → q.length ≤ s.length
  | q, [], h => by
    have : q = [] := occursL_nil_iff.mp h
    simp [this]
  | q, c :: s, h => by
    simp only [occursL, Bool.or_eq_true] at h
    rcases h with h | h
    · exact isPrefixL_length h
    · exact Nat.le_trans (occursL_length h) (Nat.le_succ _)

theorem occursL_drop {q s : List Char} (k : Nat) (h : occursL q (List.drop k s) = true) :
    occursL q s = true := by
  have := occursL_append_right (List.take k s) h
  rwa [List.take_append_drop] at this

/-- If `pat` does not occur in `s`, Python `replace` leaves `s` unchanged. -/
theorem replaceF_not_occurs {pat rep : List Char} :
    ∀ (fuel : Nat) (s : List Char), occursL pat s = false → replaceF fuel s pat rep = s
  | 0, s, _ => rfl
  | _ + 1, [], _ => rfl
  | fuel + 1, c :: s, h => by
    simp only [occursL, Bool.or_eq_false_iff] at h
    have ih := @replaceF_not_occurs pat rep fuel s h.2
    simp [replaceF, h.1, ih]

/-- A prefix avoiding the head of `pat` survives `replace`. -/
theorem isPrefixL_replaceF {p₀ : Char} {p' rep : List Char} :
    ∀ {q : List Char} (fuel : Nat) (s : List Char), p₀ ∉ q → isPrefixL q s = true →
      isPrefixL q (replaceF fuel s (p₀ :: p') rep) = true
  | [], _, _, _, _ => rfl
  | _ :: _, 0, s, _, hq => hq
  | d :: q', fuel + 1, [], _, hq => by simp [isPrefixL] at hq
  | d :: q', fuel + 1, c :: s', hn, hq => by
    simp only [isPrefixL, Bool.and_eq_true, beq_iff_eq] at hq
    have hguard : isPrefixL (p₀ :: p') (c :: s') = false := by
      cases hg : isPrefixL (p₀ :: p') (c :: s') with
      | false => rfl
      | true =>
        exfalso
        simp only [isPrefixL, Bool.and_eq_true, beq_iff_eq] at hg
        exact hn (by rw [hg.1, ← hq.1]; exact List.mem_cons_self d q')
    have ih := @isPrefixL_replaceF p₀ p' rep q' fuel s'
      (fun hm => hn (List.mem_cons_of_mem d hm)) hq.2
    simp only [replaceF]
    rw [if_neg (by simp [hguard])]
    simp [isPrefixL, hq.1, ih]

/-- A prefix of the output of `replace` avoiding the head of `rep` was
already a prefix of the input. -/
theorem isPrefixL_of_replaceF {r₀ : Char} {rep' pat : List Char} :
    ∀ (fuel : Nat) {q s : List Char}, r₀ ∉ q →
      isPrefixL q (replaceF fuel s pat (r₀ :: rep')) = true → isPrefixL q s = true
  | 0, _, _, _, hq => hq
  | fuel + 1, q, [], _, hq => by
    cases q with
    | nil => rfl
    | cons d q' => simp [replaceF, isPrefixL] at hq
  | fuel + 1, q, c :: s', hn, hq => by
    cases q with
    | nil => rfl
    | cons d q' =>
      by_cases hg : isPrefixL pat (c :: s') = true ∧ pat.isEmpty = false
      · exfalso
        simp only [replaceF, if_pos hg, List.cons_append, isPrefixL,
          Bool.and_eq_true, beq_iff_eq] at hq
        exact hn (hq.1 ▸ List.mem_cons_self d q')
      · simp only [replaceF, if_neg hg, isPrefixL, Bool.and_eq_true, beq_iff_eq] at hq ⊢
        exact ⟨hq.1,
          isPrefixL_of_replaceF fuel (fun hm => hn (List.mem_cons_of_mem d hm)) hq.2⟩

theorem natCharsF_congr : ∀ (f : Nat) {g n : Nat}, n < f → n < g →
    natCharsF f n = natCharsF g n
  | 0, _, n, hf, _ => absurd hf (Nat.not_lt_zero n)
  | f + 1, g, n, hf, hg => by
    cases g with
    | zero => exact absurd hg (Nat.not_lt_zero n)
    | succ g =>
      by_cases h10 : n < 10
      · simp [natCharsF, h10]
      · have hdiv : n / 10 < n := Nat.div_lt_self (by omega) (by omega)
        have hrec : natCharsF f (n / 10) = natCharsF g (n / 10) :=
          natCharsF_congr f (by omega) (by omega)
        simp [natCharsF, h10, hrec]

/-- Unfolding equation for `natChars`, mirroring decimal notation. -/
theorem natChars_eq (n : Nat) :
    natChars n = if n < 10 then [Nat.digitChar n]
      else natChars (n / 10) ++ [Nat.digitChar (n % 10)] := by
  show natCharsF (n + 1) n = _
  by_cases h10 : n < 10
  · simp [natCharsF, h10]
  · have hdiv : n / 10 < n := Nat.div_lt_self (by omega) (by omega)
    have hrec : natCharsF n (n / 10) = natCharsF (n / 10 + 1) (n / 10) :=
      natCharsF_congr n (by omega) (by omega)
    simp [natCharsF, h10]
    exact hrec

theorem digitChar_isDigit : ∀ n, n < 10 → (Nat.digitChar n).isDigit = true := by decide

theorem digitChar_inj10 : ∀ m, m < 10 → ∀ n, n < 10 →
    Nat.digitChar m = Nat.digitChar n → m = n := by decide

theorem natChars_ne_nil (n : Nat) : natChars n ≠ [] := by
  rw [natChars_eq]
  split <;> simp

theorem natChars_isDigit (n : Nat) : ∀ c ∈ natChars n, c.isDigit = true := by
  induction n using Nat.strong_induction_on with
  | _ n ih =>
    intro c hc
    rw [natChars_eq] at hc
    by_cases h10 : n < 10
    · rw [if_pos h10] at hc
      have : c = Nat.digitChar n := by simpa using hc
      exact this ▸ digitChar_isDigit n h10
    · have hdiv : n / 10 < n := Nat.div_lt_self (by omega) (by omega)
      rw [if_neg h10] at hc
      rcases List.mem_append.mp hc with h | h
      · exact ih _ hdiv c h
      · have : c = Nat.digitChar (n % 10) := by simpa using h
        exact this ▸ digitChar_isDigit _ (Nat.mod_lt _ (by omega))

theorem append_singleton_inj : ∀ (a : List Char) {b : List Char} {x y : Char},
    a ++ [x] = b ++ [y] → a = b ∧ x = y
  | [], b, x, y, h => by
    cases b with
    | nil => simpa using h
    | cons c b' => simp at h
  | a₀ :: a', b, x, y, h => by
    cases b with
    | nil => simp at h
    | cons b₀ b' =>
      simp only [List.cons_append, List.cons.injEq] at h
      have hrec := append_singleton_inj a' h.2
      exact ⟨by rw [h.1, hrec.1], hrec.2⟩

theorem natChars_inj : ∀ {m n : Nat}, natChars m = natChars n → m = n := by
  intro m
  induction m using Nat.strong_induction_on with
  | _ m ih =>
    intro n h
    rw [natChars_eq m, natChars_eq n] at h
    by_cases hm : m < 10 <;> by_cases hn : n < 10
    · rw [if_pos hm, if_pos hn] at h
      exact digitChar_inj10 m hm n hn (by simpa using h)
    · exfalso
      rw [if_pos hm, if_neg hn] at h
      have hl := congrArg List.length h
      simp only [List.length_singleton, List.length_append] at hl
      have : (natChars (n / 10)).length = 0 := by omega
      exact natChars_ne_nil _ (List.length_eq_zero.mp this)
    · exfalso
      rw [if_neg hm, if_pos hn] at h
      have hl := congrArg List.length h
      simp only [List.length_singleton, List.length_append] at hl
      have : (natChars (m / 10)).length = 0 := by omega
      exact natChars_ne_nil _ (List.length_eq_zero.mp this)
    · rw [if_neg hm, if_neg hn] at h
      obtain ⟨h1, h2⟩ := append_singleton_inj _ h
      have hdm : m / 10 < m := Nat.div_lt_self (by omega) (by omega)
      have e1 : m / 10 = n / 10 := ih _ hdm h1
      have e2 : m % 10 = n % 10 :=
        digitChar_inj10 _ (Nat.mod_lt _ (by omega)) _ (Nat.mod_lt _ (by omega)) h2
      omega

theorem digit_suffix_eq : ∀ (a : List Char) {b : List Char},
    (∀ c ∈ a, c.isDigit = true) → (∀ c ∈ b, c.isDigit = true) →
    isPrefixL (a ++ ['\x7d']) (b ++ ['\x7d']) = true → a = b
  | [], b, _, hb, h => by
    cases b with
    | nil => rfl
    | cons d b' =>
      exfalso
      simp only [List.nil_append, List.cons_append, isPrefixL, Bool.and_eq_true,
        beq_iff_eq] at h
      have hd := hb d (List.mem_cons_self d b')
      rw [← h.1] at hd
      simp at hd
  | a₀ :: a', b, ha, hb, h => by
    cases b with
    | nil =>
      exfalso
      simp only [List.cons_append, List.nil_append, isPrefixL, Bool.and_eq_true,
        beq_iff_eq] at h
      cases a' with
      | nil => simp [isPrefixL] at h
      | cons e a'' => simp [isPrefixL] at h
    | cons b₀ b' =>
      simp only [List.cons_append, isPrefixL, Bool.and_eq_true, beq_iff_eq] at h
      have hrec := digit_suffix_eq a' (fun c hc => ha c (List.mem_cons_of_mem a₀ hc))
        (fun c hc => hb c (List.mem_cons_of_mem b₀ hc)) h.2
      rw [h.1, hrec]

theorem placeholderL_def (n : Nat) :
    placeholderL n = '\x7b' :: (imageChars ++ (natChars n ++ ['\x7d'])) := rfl

theorem placeholderL_length (n : Nat) : 8 ≤ (placeholderL n).length := by
  have h1 : 1 ≤ (natChars n).length := List.length_pos.mpr (natChars_ne_nil n)
  simp only [placeholderL_def, List.length_cons, List.length_append, imageChars,
    List.length_singleton]
  omega

theorem brace_not_mem_ph_tail (n : Nat) :
    '\x7b' ∉ imageChars ++ (natChars n ++ ['\x7d']) := by
  intro h
  rcases List.mem_append.mp h with h | h
  · exact absurd h (by decide)
  · rcases List.mem_append.mp h with h | h
    · exact absurd (natChars_isDigit n _ h) (by decide)
    · exact absurd h (by decide)

theorem lt_not_mem_placeholderL (n : Nat) : '<' ∉ placeholderL n := by
  intro h
  rw [placeholderL_def] at h
  rcases List.mem_cons.mp h with h | h
  · exact absurd h (by decide)
  · rcases List.mem_append.mp h with h | h
    · exact absurd h (by decide)
    · rcases List.mem_append.mp h with h | h
      · exact absurd (natChars_isDigit n _ h) (by decide)
      · exact absurd h (by decide)

/-- Distinct indices give prefix-incompatible placeholders; a placeholder is
a prefix of another only when the indices agree. -/
theorem placeholder_isPrefixL_eq {m n : Nat}
    (h : isPrefixL (placeholderL m) (placeholderL n) = true) : m = n := by
  have h' : isPrefixL (('\x7b' :: imageChars) ++ (natChars m ++ ['\x7d']))
      (('\x7b' :: imageChars) ++ (natChars n ++ ['\x7d'])) = true := h
  rw [isPrefixL_append_left] at h'
  exact natChars_inj (digit_suffix_eq _ (natChars_isDigit m) (natChars_isDigit n) h')

theorem keyChars_inj {m n : Nat} (h : keyChars m = keyChars n) : m = n := by
  have h' : imageChars ++ natChars m = imageChars ++ natChars n := h
  exact natChars_inj (List.append_cancel_left h')

theorem brace_not_mem_tag : '\x7b' ∉ wechatImgTag := by decide

/-- After `replace`, the pattern no longer occurs, provided the heads of the
pattern and of the replacement do not occur in the other list. -/
theorem replaceF_removes {p₀ r₀ : Char} {p' rep' : List Char}
    (hp : p₀ ∉ (r₀ :: rep')) (hr : r₀ ∉ (p₀ :: p')) :
    ∀ (fuel : Nat) (s : List Char), s.length ≤ fuel →
      occursL (p₀ :: p') (replaceF fuel s (p₀ :: p') (r₀ :: rep')) = false
  | 0, s, hf => by
    have hs : s = [] := List.length_eq_zero.mp (Nat.le_zero.mp hf)
    subst hs
    simp [replaceF, occursL, isPrefixL]
  | fuel + 1, [], _ => by simp [replaceF, occursL, isPrefixL]
  | fuel + 1, c :: s', hf => by
    have hf' : s'.length ≤ fuel := by simpa using hf
    by_cases hg : isPrefixL (p₀ :: p') (c :: s') = true ∧ (p₀ :: p').isEmpty = false
    · have hlen : (List.drop ((p₀ :: p').length - 1) s').length ≤ fuel := by
        rw [List.length_drop]; omega
      have ih := replaceF_removes hp hr fuel _ hlen
      simp only [replaceF, if_pos hg]
      cases hocc : occursL (p₀ :: p')
          ((r₀ :: rep') ++
            replaceF fuel (List.drop ((p₀ :: p').length - 1) s') (p₀ :: p') (r₀ :: rep')) with
      | false => rfl
      | true =>
        exfalso
        have hx := occursL_head_notin (r₀ :: rep') hp hocc
        rw [ih] at hx
        exact Bool.false_ne_true hx
    · have hps : isPrefixL (p₀ :: p') (c :: s') = false := by
        cases hps' : isPrefixL (p₀ :: p') (c :: s') with
        | false => rfl
        | true => exact absurd ⟨hps', rfl⟩ hg
      have ih := replaceF_removes hp hr fuel s' hf'
      simp only [replaceF, if_neg hg]
      cases hpr : isPrefixL (p₀ :: p')
          (c :: replaceF fuel s' (p₀ :: p') (r₀ :: rep')) with
      | false => simp [occursL, hpr, ih]
      | true =>
        exfalso
        simp only [isPrefixL, Bool.and_eq_true, beq_iff_eq] at hpr
        have h1 : isPrefixL p' s' = true :=
          isPrefixL_of_replaceF fuel (fun hm => hr (List.mem_cons_of_mem p₀ hm)) hpr.2
        have h2 : isPrefixL (p₀ :: p') (c :: s') = true := by
          simp [isPrefixL, hpr.1, h1]
        rw [hps] at h2
        exact Bool.false_ne_true h2

/-- `replace` creates no new occurrence of a pattern `q₀ :: q'` whose head
avoids the replacement and which avoids the replacement's head. -/
theorem occursL_of_replaceF {q₀ r₀ : Char} {q' rep' pat : List Char}
    (hq : q₀ ∉ (r₀ :: rep')) (hr : r₀ ∉ (q₀ :: q')) :
    ∀ (fuel : Nat) (s : List Char),
      occursL (q₀ :: q') (replaceF fuel s pat (r₀ :: rep')) = true →
      occursL (q₀ :: q') s = true
  | 0, s, h => h
  | fuel + 1, [], h => by simpa [replaceF] using h
  | fuel + 1, c :: s', h => by
    by_cases hg : isPrefixL pat (c :: s') = true ∧ pat.isEmpty = false
    · simp only [replaceF, if_pos hg] at h
      have h1 := occursL_head_notin (r₀ :: rep') hq h
      have h2 := occursL_of_replaceF hq hr fuel _ h1
      have h3 := occursL_drop _ h2
      exact occursL_cons_tail c h3
    · simp only [replaceF, if_neg hg] at h
      simp only [occursL, Bool.or_eq_true] at h ⊢
      rcases h with h | h
      · left
        simp only [isPrefixL, Bool.and_eq_true, beq_iff_eq] at h ⊢
        exact ⟨h.1,
          isPrefixL_of_replaceF fuel (fun hm => hr (List.mem_cons_of_mem q₀ hm)) h.2⟩
      · right
        exact occursL_of_replaceF hq hr fuel s' h

/-- Replacing the placeholder of index `i` preserves every occurrence of the
placeholder of a different index `j`. -/
theorem replaceF_keeps {i j : Nat} (hij : i ≠ j) (rep : List Char) :
    ∀ (fuel : Nat) (s : List Char), occursL (placeholderL j) s = true →
      occursL (placeholderL j) (replaceF fuel s (placeholderL i) rep) = true
  | 0, s, h => h
  | fuel + 1, [], h => by simp [occursL, placeholderL_def, isPrefixL] at h
  | fuel + 1, c :: s', h => by
    simp only [occursL, Bool.or_eq_true] at h
    by_cases hg : isPrefixL (placeholderL i) (c :: s') = true ∧
        (placeholderL i).isEmpty = false
    · rcases h with h | h
      · exfalso
        rcases isPrefixL_total h hg.1 with hp | hp
        · exact hij (placeholder_isPrefixL_eq hp).symm
        · exact hij (placeholder_isPrefixL_eq hp)
      · have hg1 : isPrefixL (imageChars ++ (natChars i ++ ['\x7d'])) s' = true := by
          have hx := hg.1
          rw [placeholderL_def i] at hx
          simp only [isPrefixL, Bool.and_eq_true, beq_iff_eq] at hx
          exact hx.2
        have hsp := eq_append_drop_of_isPrefixL hg1
        rw [hsp] at h
        have h2 := occursL_head_notin (imageChars ++ (natChars i ++ ['\x7d']))
          (brace_not_mem_ph_tail i) h
        have ih := replaceF_keeps hij rep fuel _ h2
        simp only [replaceF, if_pos hg]
        have hlen : (placeholderL i).length - 1 =
            (imageChars ++ (natChars i ++ ['\x7d'])).length := by
          rw [placeholderL_def i]; simp
        rw [hlen]
        exact occursL_append_right rep ih
    · simp only [replaceF, if_neg hg]
      simp only [occursL, Bool.or_eq_true]
      rcases h with h | h
      · left
        rw [placeholderL_def j] at h ⊢
        simp only [isPrefixL, Bool.and_eq_true, beq_iff_eq] at h ⊢
        exact ⟨h.1, @isPrefixL_replaceF '\x7b' (imageChars ++ (natChars i ++ ['\x7d']))
          rep (imageChars ++ (natChars j ++ ['\x7d'])) fuel s'
          (brace_not_mem_ph_tail j) h.2⟩
      · right
        exact replaceF_keeps hij rep fuel s' h

theorem replaceAll_not_occurs {s pat rep : List Char} (h : occursL pat s = false) :
    replaceAll s pat rep = s :=
  replaceF_not_occurs s.length s h

/-- In `process_content_images`, substituting the embed tag for the
placeholder of index `i` removes all its occurrences. -/
theorem replaceAll_removes (i : Nat) (s : List Char) :
    occursL (placeholderL i) (replaceAll s (placeholderL i) wechatImgTag) = false :=
  @replaceF_removes '\x7b' '<' (imageChars ++ (natChars i ++ ['\x7d']))
    wechatImgTagTail brace_not_mem_tag (lt_not_mem_placeholderL i)
    s.length s (Nat.le_refl _)

/-- Substituting the embed tag for the placeholder of index `i` cannot create
an occurrence of any placeholder. -/
theorem replaceAll_no_new (i j : Nat) (s : List Char)
    (h : occursL (placeholderL j) (replaceAll s (placeholderL i) wechatImgTag) = true) :
    occursL (placeholderL j) s = true :=
  @occursL_of_replaceF '\x7b' '<' (imageChars ++ (natChars j ++ ['\x7d']))
    wechatImgTagTail (placeholderL i) brace_not_mem_tag (lt_not_mem_placeholderL j)
    s.length s h

/-- Substituting the embed tag for the placeholder of index `i` preserves
every occurrence of the placeholder of a different index `j`. -/
theorem replaceAll_keeps {i j : Nat} (hij : i ≠ j) (s : List Char)
    (h : occursL (placeholderL j) s = true) :
    occursL (placeholderL j) (replaceAll s (placeholderL i) wechatImgTag) = true :=
  replaceF_keeps hij wechatImgTag s.length s h

/-- The loop of `process_content_images` (source lines 89-103).  The outcome
of downloading and uploading the image at each index is supplied as an
oracle: `some mediaId` when both download (line 91) and upload (line 92)
succeed, `none` when either raises.  On success the placeholder is replaced
by the fixed tag and the mapping gains the entry `image{idx}`; on failure the
exception is logged and the loop continues with the next index. -/
def processGo : List Char → List (Option (List Char)) → Nat →
    List Char × List (List Char × List Char)
  | html, [], _ => (html, [])
  | html, some mediaId :: rest, idx =>
    let html2 := replaceAll html (placeholderL idx) wechatImgTag
    let out := processGo html2 rest (idx + 1)
    (out.1, (keyChars idx, mediaId) :: out.2)
  | html, none :: rest, idx => processGo html rest (idx + 1)

/-- `process_content_images(content_html, image_urls, access_token)`
(source lines 86-105): returns the rewritten HTML and the mapping from
`image{idx}` keys to uploaded media ids, in index order.  The list `results`
holds, for the URL at each index, the combined download/upload outcome. -/
def processContentImages (contentHtml : List Char)
    (results : List (Option (List Char))) :
    List Char × List (List Char × List Char) :=
  processGo contentHtml results 0

/-- Nothing in the loop creates a placeholder occurrence that was absent
from the incoming HTML. -/
theorem processGo_fst_no_new : ∀ (results : List (Option (List Char)))
    (html : List Char) (idx j : Nat),
    occursL (placeholderL j) (processGo html results idx).1 = true →
    occursL (placeholderL j) html = true
  | [], _, _, _, h => h
  | some m :: rest, html, idx, j, h => by
    have h' : occursL (placeholderL j)
        (processGo (replaceAll html (placeholderL idx) wechatImgTag) rest (idx + 1)).1
          = true := h
    have ih := processGo_fst_no_new rest _ (idx + 1) j h'
    exact replaceAll_no_new idx j html ih
  | none :: rest, html, idx, j, h =>
    processGo_fst_no_new rest html (idx + 1) j h

/-- A successful index has all occurrences of its placeholder removed from
the final HTML. -/
theorem processGo_removes_at : ∀ (results : List (Option (List Char)))
    (html : List Char) (idx i : Nat) (mid : List Char),
    results[i]? = some (some mid) →
    occursL (placeholderL (idx + i)) (processGo html results idx).1 = false
  | [], _, _, i, _, h => by simp at h
  | r :: rest, html, idx, 0, mid, h => by
    have hr : r = some mid := by simpa using h
    subst hr
    rw [Nat.add_zero]
    cases hocc : occursL (placeholderL idx)
        (processGo (replaceAll html (placeholderL idx) wechatImgTag) rest (idx + 1)).1 with
    | false => exact hocc
    | true =>
      exfalso
      have hx := processGo_fst_no_new rest _ (idx + 1) idx hocc
      rw [replaceAll_removes idx html] at hx
      exact Bool.false_ne_true hx
  | r :: rest, html, idx, i + 1, mid, h => by
    have h' : rest[i]? = some (some mid) := by simpa using h
    have harith : idx + 1 + i = idx + (i + 1) := by omega
    cases r with
    | some m =>
      have ih := processGo_removes_at rest
        (replaceAll html (placeholderL idx) wechatImgTag) (idx + 1) i mid h'
      rw [harith] at ih
      exact ih
    | none =>
      have ih := processGo_removes_at rest html (idx + 1) i mid h'
      rw [harith] at ih
      exact ih

/-- A successful index contributes its mapping entry. -/
theorem processGo_mem : ∀ (results : List (Option (List Char)))
    (html : List Char) (idx i : Nat) (mid : List Char),
    results[i]? = some (some mid) →
    (keyChars (idx + i), mid) ∈ (processGo html results idx).2
  | [], _, _, i, _, h => by simp at h
  | r :: rest, html, idx, 0, mid, h => by
    have hr : r = some mid := by simpa using h
    subst hr
    rw [Nat.add_zero]
    exact List.mem_cons_self _ _
  | r :: rest, html, idx, i + 1, mid, h => by
    have h' : rest[i]? = some (some mid) := by simpa using h
    have harith : idx + 1 + i = idx + (i + 1) := by omega
    cases r with
    | some m =>
      have ih := processGo_mem rest
        (replaceAll html (placeholderL idx) wechatImgTag) (idx + 1) i mid h'
      rw [harith] at ih
      exact List.mem_cons_of_mem _ ih
    | none =>
      have ih := processGo_mem rest html (idx + 1) i mid h'
      rw [harith] at ih
      exact ih

/-- Every mapping entry arises from a successful index. -/
theorem processGo_keysD : ∀ (results : List (Option (List Char)))
    (html : List Char) (idx : Nat) {p : List Char × List Char},
    p ∈ (processGo html results idx).2 →
    ∃ i mid, results[i]? = some (some mid) ∧ p = (keyChars (idx + i), mid)
  | [], _, _, _, hp => by simp [processGo] at hp
  | some m :: rest, html, idx, p, hp => by
    rcases List.mem_cons.mp hp with hp | hp
    · exact ⟨0, m, by simp, by simpa using hp⟩
    · obtain ⟨i, mid, h1, h2⟩ := processGo_keysD rest _ (idx + 1) hp
      have harith : idx + 1 + i = idx + (i + 1) := by omega
      rw [harith] at h2
      exact ⟨i + 1, mid, by simpa using h1, h2⟩
  | none :: rest, html, idx, p, hp => by
    obtain ⟨i, mid, h1, h2⟩ := processGo_keysD rest html (idx + 1) hp
    have harith : idx + 1 + i = idx + (i + 1) := by omega
    rw [harith] at h2
    exact ⟨i + 1, mid, by simpa using h1, h2⟩

/-- A placeholder whose index is not successfully processed survives in the
final HTML. -/
theorem processGo_keeps : ∀ (results : List (Option (List Char)))
    (html : List Char) (idx N : Nat),
    occursL (placeholderL N) html = true →
    (∀ i mid, results[i]? = some (some mid) → idx + i ≠ N) →
    occursL (placeholderL N) (processGo html results idx).1 = true
  | [], _, _, _, hocc, _ => hocc
  | some m :: rest, html, idx, N, hocc, hnone => by
    have hij : idx ≠ N := by
      have := hnone 0 m (by simp)
      simpa using this
    have h2 := replaceAll_keeps hij html hocc
    exact processGo_keeps rest _ (idx + 1) N h2 (fun i mid hm => by
      have := hnone (i + 1) mid (by simpa using hm)
      omega)
  | none :: rest, html, idx, N, hocc, hnone =>
    processGo_keeps rest html (idx + 1) N hocc (fun i mid hm => by
      have := hnone (i + 1) mid (by simpa using hm)
      omega)

/-- On HTML free of placeholders, the loop never changes the HTML. -/
theorem processGo_id : ∀ (results : List (Option (List Char)))
    (html : List Char) (idx : Nat),
    (∀ N, occursL (placeholderL N) html = false) →
    (processGo html results idx).1 = html
  | [], _, _, _ => rfl
  | some m :: rest, html, idx, hno => by
    show (processGo (replaceAll html (placeholderL idx) wechatImgTag) rest (idx + 1)).1
      = html
    rw [replaceAll_not_occurs (hno idx)]
    exact processGo_id rest html (idx + 1) hno
  | none :: rest, html, idx, hno => processGo_id rest html (idx + 1) hno

/-- When every index succeeds, the mapping keys are exactly
`image{idx} .. image{idx+len-1}` in order. -/
theorem processGo_all_keys : ∀ (results : List (Option (List Char)))
    (html : List Char) (idx : Nat),
    (∀ r ∈ results, r ≠ none) →
    (processGo html results idx).2.map Prod.fst =
      (List.range' idx results.length).map keyChars
  | [], _, _, _ => rfl
  | some m :: rest, html, idx, hall => by
    have ih := processGo_all_keys rest
      (replaceAll html (placeholderL idx) wechatImgTag) (idx + 1)
      (fun r hr => hall r (List.mem_cons_of_mem _ hr))
    show ((keyChars idx, m) ::
        (processGo (replaceAll html (placeholderL idx) wechatImgTag) rest (idx + 1)).2).map
          Prod.fst = (List.range' idx (rest.length + 1)).map keyChars
    rw [List.map_cons, ih]
    rfl
  | none :: rest, html, idx, hall =>
    absurd rfl (hall none (List.mem_cons_self none rest))

/-- When every index succeeds, no placeholder with an in-range index
survives in the final HTML. -/
theorem processGo_all_removes : ∀ (results : List (Option (List Char)))
    (html : List Char) (idx : Nat),
    (∀ r ∈ results, r ≠ none) → ∀ N, idx ≤ N → N < idx + results.length →
    occursL (placeholderL N) (processGo html results idx).1 = false
  | [], _, idx, _, N, h1, h2 => by
    simp only [List.length_nil, Nat.add_zero] at h2
    omega
  | some m :: rest, html, idx, hall, N, h1, h2 => by
    by_cases hN : N = idx
    · subst hN
      cases hocc : occursL (placeholderL N)
          (processGo (replaceAll html (placeholderL N) wechatImgTag) rest (N + 1)).1 with
      | false => exact hocc
      | true =>
        exfalso
        have hx := processGo_fst_no_new rest _ (N + 1) N hocc
        rw [replaceAll_removes N html] at hx
        exact Bool.false_ne_true hx
    · simp only [List.length_cons] at h2
      exact processGo_all_removes rest
        (replaceAll html (placeholderL idx) wechatImgTag) (idx + 1)
        (fun r hr => hall r (List.mem_cons_of_mem _ hr)) N (by omega) (by omega)
  | none :: rest, _, _, hall, _, _, _ =>
    absurd rfl (hall none (List.mem_cons_self none _))

/-- HTML shorter than any placeholder contains none of them. -/
theorem short_no_placeholder {s : List Char} (h : s.length < 8) :
    ∀ N, occursL (placeholderL N) s = false := by
  intro N
  cases hocc : occursL (placeholderL N) s with
  | false => rfl
  | true =>
    exfalso
    have h1 := occursL_length hocc
    have h2 := placeholderL_length N
    omega

/-- The outbound calls the orchestrator can make to the remote platform. -/
inductive Call where
  | tokenCall
  | fetchCall
  | uploadCall
  | draftCall
  | publishCall
  deriving DecidableEq

/-- Failure stages of the orchestration (spec section 7 taxonomy); every one
is surfaced by the handler as an HTTP 500 whose detail is the stage's
error text. -/
inductive StageErr where
  | authError
  | fetchError
  | uploadError
  | draftError
  | publishError
  deriving DecidableEq

/-- HTTP-level outcome of the handler: `badRequest` is the
`HTTPException(400, ...)` raised on validation (source line 172), and
`internalError` is the `HTTPException(500, str(e))` raised for any other
exception (source line 212). -/
inductive HttpError where
  | badRequest
  | internalError (stage : StageErr)
  deriving DecidableEq

/-- HTTP status code of a handler error. -/
def statusOf : HttpError → Nat
  | .badRequest => 400
  | .internalError _ => 500

/-- Combined download/upload outcome for one content image. -/
inductive ImgOutcome where
  | fetchFail
  | uploadFail
  | success (mediaId : List Char)
  deriving DecidableEq

/-- The media id produced by an outcome, when both steps succeeded. -/
def outcomeMedia : ImgOutcome → Option (List Char)
  | .fetchFail => none
  | .uploadFail => none
  | .success mid => some mid

/-- The network calls performed for one content image: the download always
runs; the upload runs only if the download succeeded. -/
def outcomeCalls : ImgOutcome → List Call
  | .fetchFail => [Call.fetchCall]
  | .uploadFail => [Call.fetchCall, Call.uploadCall]
  | .success _ => [Call.fetchCall, Call.uploadCall]

/-- One article of the `draft/add` payload (source lines 115-125). -/
structure Article where
  title : List Char
  author : List Char
  content : List Char
  thumb_media_id : List Char
  need_open_comment : Nat
  only_fans_can_comment : Nat
  content_source_url : List Char
  deriving DecidableEq

/-- The static `content_source_url` of every draft (source line 123). -/
def draftSourceUrl : List Char := "https://openai.com".data

/-- `create_draft` (source lines 108-138).  `decode` models Python
`.encode('utf-8').decode('unicode_escape')` — the external codec applied to
the body (line 113), the title (line 117) and the author (line 118); `none`
models a raised decoding error.  `resp` models the `draft/add` exchange:
`none` is a transport error, `some none` a response without `media_id`,
`some (some mid)` success.  The second component is the submitted payload,
`none` when the exchange was never attempted. -/
def create_draft (decode : List Char → Option (List Char))
    (title author contentHtml thumbMediaId : List Char)
    (resp : Option (Option (List Char))) :
    Except StageErr (List Char) × Option Article :=
  match decode contentHtml with
  | none => (Except.error StageErr.draftError, none)
  | some processedHtml =>
    match decode title, decode author with
    | some t, some a =>
      let payload : Article :=
        { title := t, author := a, content := processedHtml,
          thumb_media_id := thumbMediaId, need_open_comment := 0,
          only_fans_can_comment := 0, content_source_url := draftSourceUrl }
      match resp with
      | some (some mediaId) => (Except.ok mediaId, some payload)
      | some none => (Except.error StageErr.draftError, some payload)
      | none => (Except.error StageErr.draftError, some payload)
    | _, _ => (Except.error StageErr.draftError, none)

/-- The default success marker returned when the platform omits
`publish_id` (source line 150). -/
def publishSuccessMarker : List Char := "发布成功".data

/-- Response body of `freepublish/submit`: `errcode` and `publish_id` are
each absent or present. -/
structure PublishResp where
  errcode : Option Int
  publish_id : Option (List Char)
  deriving DecidableEq

/-- `publish_draft` (source lines 141-158): succeeds exactly when the
response arrives and carries `errcode == 0`; then it returns `publish_id`,
defaulting to the success marker.  A transport error (`none`) or any other
`errcode` raises, surfacing as the publish-stage error. -/
def publish_draft (resp : Option PublishResp) : Except StageErr (List Char) :=
  match resp with
  | none => Except.error StageErr.publishError
  | some r =>
    if r.errcode = some 0 then Except.ok (r.publish_id.getD publishSuccessMarker)
    else Except.error StageErr.publishError

/-- The parsed JSON request body `req_data`: each field is `none` when the
key is absent.  `content_image_urls` defaults to `[]` via
`req_data.get('content_image_urls', [])` (source line 184). -/
structure ReqData where
  APP_ID : Option (List Char)
  APP_SECRET : Option (List Char)
  title : Option (List Char)
  author : Option (List Char)
  content_html : Option (List Char)
  cover_image_url : Option (List Char)
  content_image_urls : Option (List (List Char))
  deriving DecidableEq

/-- The validation check `all(key in req_data for key in required_fields)`
(source lines 170-171): key presence only — values are not inspected. -/
def requiredPresent (req : ReqData) : Bool :=
  req.APP_ID.isSome && req.APP_SECRET.isSome && req.title.isSome &&
    req.author.isSome && req.content_html.isSome && req.cover_image_url.isSome

/-- Outcomes of the external collaborators for one request: the token
endpoint, the cover download and upload, the per-index content image
outcomes, the escape-decoding codec, and the draft and publish endpoints.
`none` models the corresponding call raising. -/
structure Env where
  token : Option (List Char)
  coverFetch : Option (List Char)
  coverUpload : Option (List Char)
  contentOutcomes : Nat → ImgOutcome
  decode : List Char → Option (List Char)
  draftResp : Option (Option (List Char))
  publishResp : Option PublishResp

/-- The success response body of `/publish` (source lines 200-206). -/
structure SuccessResp where
  draft_media_id : List Char
  cover_media_id : List Char
  content_media_ids : List (List Char × List Char)
  publish_id : List Char
  deriving DecidableEq

/-- The `/publish` handler `publish_article` (source lines 162-212),
together with the list of outbound platform calls it performs, in order:
validate presence of the required fields, acquire the token, download and
upload the cover, process the content images, create the draft, publish.
The first failing stage aborts the rest (its exception propagates to the
top-level handler and becomes a 500), except that per-image failures inside
`process_content_images` are swallowed there. -/
def publish_article (req : ReqData) (env : Env) :
    Except HttpError SuccessResp × List Call :=
  if requiredPresent req then
    match env.token with
    | none => (Except.error (HttpError.internalError StageErr.authError),
        [Call.tokenCall])
    | some _token =>
      match env.coverFetch with
      | none => (Except.error (HttpError.internalError StageErr.fetchError),
          [Call.tokenCall, Call.fetchCall])
      | some _coverBytes =>
        match env.coverUpload with
        | none => (Except.error (HttpError.internalError StageErr.uploadError),
            [Call.tokenCall, Call.fetchCall, Call.uploadCall])
        | some coverMediaId =>
          let urls := req.content_image_urls.getD []
          let outcomes := (List.range urls.length).map env.contentOutcomes
          let pre := [Call.tokenCall, Call.fetchCall, Call.uploadCall] ++
            (outcomes.map outcomeCalls).flatten
          let processed := processContentImages (req.content_html.getD [])
            (outcomes.map outcomeMedia)
          match create_draft env.decode (req.title.getD []) (req.author.getD [])
              processed.1 coverMediaId env.draftResp with
          | (Except.error _, submitted) =>
            (Except.error (HttpError.internalError StageErr.draftError),
              pre ++ (if submitted.isSome then [Call.draftCall] else []))
          | (Except.ok draftMediaId, _) =>
            match publish_draft env.publishResp with
            | Except.error _ =>
              (Except.error (HttpError.internalError StageErr.publishError),
                pre ++ [Call.draftCall, Call.publishCall])
            | Except.ok publishId =>
              let resp : SuccessResp :=
                { draft_media_id := draftMediaId,
                  cover_media_id := coverMediaId,
                  content_media_ids := processed.2,
                  publish_id := publishId }
              (Except.ok resp, pre ++ [Call.draftCall, Call.publishCall])
  else (Except.error HttpError.badRequest, [])

/-- Claim C1 fails as stated: in a run of `process_content_images` where
every fetch and upload succeeds (here K = 1), the returned mapping has
exactly the keys `image0 .. image{K-1}`, yet the returned HTML still
contains the placeholder token `\x7bimage1\x7d` — an `\x7bimageN\x7d` token
whose index is out of range — so the HTML does not contain zero occurrences
of every `\x7bimageN\x7d` token. -/
theorem claim1_counterexample :
    (processContentImages ("\x7bimage1\x7d".data) [some "MID1".data]).2 =
        [(keyChars 0, "MID1".data)] ∧
      occursL (placeholderL 1)
        (processContentImages ("\x7bimage1\x7d".data) [some "MID1".data]).1 = true := by
  decide

/-- Claim C1 (amended): for every run of `process_content_images` with K
content images in which every fetch and upload succeeds, the returned
mapping has exactly K entries keyed `image0 .. image{K-1}` in order, and the
returned HTML contains zero occurrences of `\x7bimageN\x7d` for every
N < K; placeholder tokens with indices ≥ K present in the input may
remain. -/
theorem claim1_theorem (html : List Char) (results : List (Option (List Char)))
    (hall : ∀ r ∈ results, r ≠ none) :
    (processContentImages html results).2.map Prod.fst =
        (List.range results.length).map keyChars ∧
      ∀ N, N < results.length →
        occursL (placeholderL N) (processContentImages html results).1 = false := by
  constructor
  · rw [List.range_eq_range']
    exact processGo_all_keys results html 0 hall
  · intro N hN
    exact processGo_all_removes results html 0 hall N (Nat.zero_le N) (by omega)

/-- Witness for C1 (amended) at a concrete all-success run. -/
theorem claim1_witness :
    (processContentImages ("<p>\x7bimage0\x7d</p>".data) [some "M".data]).2.map Prod.fst =
        (List.range 1).map keyChars ∧
      occursL (placeholderL 0)
        (processContentImages ("<p>\x7bimage0\x7d</p>".data) [some "M".data]).1 = false :=
  ⟨(claim1_theorem ("<p>\x7bimage0\x7d</p>".data) [some "M".data] (by decide)).1,
    (claim1_theorem ("<p>\x7bimage0\x7d</p>".data) [some "M".data] (by decide)).2 0
      (by decide)⟩

/-- Claim C2: if the fetch or upload of content image j fails, the returned
mapping omits the key `image{j}`, the placeholder `\x7bimage{j}\x7d` (when
present in the input) remains unreplaced in the returned HTML, and every
other successfully processed index still contributes its mapping entry.
Moreover the orchestration does not abort on image failures: whatever the
per-image outcomes, a request whose other stages all succeed completes with
a success response. -/
theorem claim2_theorem (html : List Char) (results : List (Option (List Char)))
    (j : Nat) (hj : results[j]? = some none) :
    keyChars j ∉ (processContentImages html results).2.map Prod.fst ∧
      (occursL (placeholderL j) html = true →
        occursL (placeholderL j) (processContentImages html results).1 = true) ∧
      (∀ i mid, results[i]? = some (some mid) →
        (keyChars i, mid) ∈ (processContentImages html results).2) ∧
      ∀ (req : ReqData) (env : Env) (tok bytes cover draft : List Char)
        (presp : PublishResp),
        requiredPresent req = true → env.token = some tok →
        env.coverFetch = some bytes → env.coverUpload = some cover →
        (∀ s, env.decode s = some s) → env.draftResp = some (some draft) →
        env.publishResp = some presp → presp.errcode = some 0 →
        ∃ v, (publish_article req env).1 = Except.ok v := by
  refine ⟨?_, ?_, ?_, ?_⟩
  · intro hmem
    rcases List.mem_map.mp hmem with ⟨p, hp, hfst⟩
    obtain ⟨i, mid, h1, h2⟩ := processGo_keysD results html 0 hp
    rw [h2] at hfst
    have hkey : keyChars (0 + i) = keyChars j := hfst
    have hij : 0 + i = j := keyChars_inj hkey
    have hi' : i = j := by omega
    rw [hi', hj] at h1
    simp at h1
  · intro hocc
    refine processGo_keeps results html 0 j hocc ?_
    intro i mid hm heq
    have hi' : i = j := by omega
    rw [hi', hj] at hm
    simp at hm
  · intro i mid hm
    have := processGo_mem results html 0 i mid hm
    simpa using this
  · intro req env tok bytes cover draft presp hreq htok hcf hcu hdec hdr hpr herr
    unfold publish_article
    rw [if_pos hreq, htok, hcf, hcu]
    dsimp only
    rw [hdr]
    simp only [create_draft, hdec]
    rw [hpr]
    simp [publish_draft, herr]

/-- Witness for C2: index 1 fails, index 0 succeeds. -/
theorem claim2_witness :
    keyChars 1 ∉ (processContentImages ("\x7bimage0\x7d\x7bimage1\x7d".data)
        [some "A".data, none]).2.map Prod.fst ∧
      occursL (placeholderL 1)
        (processContentImages ("\x7bimage0\x7d\x7bimage1\x7d".data)
          [some "A".data, none]).1 = true :=
  ⟨(claim2_theorem ("\x7bimage0\x7d\x7bimage1\x7d".data) [some "A".data, none] 1
      (by decide)).1,
    (claim2_theorem ("\x7bimage0\x7d\x7bimage1\x7d".data) [some "A".data, none] 1
      (by decide)).2.1 (by decide)⟩

/-- Claim C3 fails as stated: on HTML free of placeholder tokens but with a
nonempty `image_urls` list whose upload succeeds, `process_content_images`
returns the HTML unchanged but a NONEMPTY mapping (the entry `image0` is
recorded even though nothing was replaced). -/
theorem claim3_counterexample :
    (processContentImages ("hi".data) [some "M".data]).1 = "hi".data ∧
      (processContentImages ("hi".data) [some "M".data]).2 ≠ [] := by
  decide

/-- Claim C3 (amended): on content free of `\x7bimageN\x7d` tokens,
`process_content_images` returns the text unchanged for every list of
outcomes; the mapping is empty when `image_urls` is empty (in general it
gains one entry per successful upload even without a matching token). -/
theorem claim3_theorem (html : List Char) (results : List (Option (List Char)))
    (hno : ∀ N, occursL (placeholderL N) html = false) :
    (processContentImages html results).1 = html ∧
      (processContentImages html ([] : List (Option (List Char)))).2 = [] :=
  ⟨processGo_id results html 0 hno, rfl⟩

/-- Witness for C3 (amended) at a concrete token-free input. -/
theorem claim3_witness :
    (processContentImages ("hi".data) [some "M".data, none]).1 = "hi".data :=
  (claim3_theorem ("hi".data) [some "M".data, none]
    (short_no_placeholder (by decide))).1

/-- A request with every required key present but `APP_SECRET` bound to the
empty string. -/
def reqEmptySecret : ReqData :=
  { APP_ID := some "wx".data, APP_SECRET := some [], title := some "t".data,
    author := some "a".data, content_html := some "<p>hello</p>".data,
    cover_image_url := some "http://x/c.jpg".data, content_image_urls := some [] }

/-- An environment in which the token endpoint fails (as it would for an
empty secret) and nothing else is reachable. -/
def envAuthFail : Env :=
  { token := none, coverFetch := none, coverUpload := none,
    contentOutcomes := fun _ => ImgOutcome.fetchFail, decode := some,
    draftResp := none, publishResp := none }

/-- Claim C4 fails as stated: with every required field present but
`APP_SECRET` equal to the empty string, validation passes, the downstream
token stage runs (the call trace is nonempty), and the failure surfaces as
a 500-class auth error — not as a 400 validation failure. -/
theorem claim4_counterexample :
    publish_article reqEmptySecret envAuthFail =
      (Except.error (HttpError.internalError StageErr.authError), [Call.tokenCall]) :=
  rfl

/-- Claim C4 (amended): validation checks only key presence; a request
whose required fields are all present — even bound to empty strings — is
never rejected with the 400 validation error, and the downstream
orchestration always runs, beginning with the token acquisition call. -/
theorem claim4_theorem (req : ReqData) (env : Env)
    (h : requiredPresent req = true) :
    (publish_article req env).1 ≠ Except.error HttpError.badRequest ∧
      ∃ rest, (publish_article req env).2 = Call.tokenCall :: rest := by
  unfold publish_article
  rw [if_pos h]
  rcases env.token with _ | tok
  · exact ⟨by simp, ⟨[], rfl⟩⟩
  rcases env.coverFetch with _ | bytes
  · exact ⟨by simp, ⟨[Call.fetchCall], rfl⟩⟩
  rcases env.coverUpload with _ | cover
  · exact ⟨by simp, ⟨[Call.fetchCall, Call.uploadCall], rfl⟩⟩
  dsimp only
  split
  · exact ⟨by simp, ⟨_, rfl⟩⟩
  · split
    · exact ⟨by simp, ⟨_, rfl⟩⟩
    · exact ⟨by simp, ⟨_, rfl⟩⟩

/-- Witness for C4 (amended) at the concrete empty-secret request. -/
theorem claim4_witness :
    (publish_article reqEmptySecret envAuthFail).1 ≠
      Except.error HttpError.badRequest :=
  (claim4_theorem reqEmptySecret envAuthFail (by decide)).1

/-- Claim C5: a request missing at least one required key is rejected with
the 400 validation error and the handler performs no outbound call at
all. -/
theorem claim5_theorem (req : ReqData) (env : Env)
    (h : req.APP_ID = none ∨ req.APP_SECRET = none ∨ req.title = none ∨
      req.author = none ∨ req.content_html = none ∨ req.cover_image_url = none) :
    publish_article req env = (Except.error HttpError.badRequest, []) ∧
      statusOf HttpError.badRequest = 400 := by
  have hrp : requiredPresent req = false := by
    rcases h with h | h | h | h | h | h <;> simp [requiredPresent, h]
  refine ⟨?_, rfl⟩
  unfold publish_article
  rw [if_neg (by simp [hrp])]

/-- A request missing the `title` key. -/
def reqNoTitle : ReqData :=
  { APP_ID := some "wx".data, APP_SECRET := some "s".data, title := none,
    author := some "a".data, content_html := some "c".data,
    cover_image_url := some "u".data, content_image_urls := none }

/-- An environment where every collaborator would succeed; claim C5 shows
none of it is reached. -/
def envAllOk : Env :=
  { token := some "tok".data, coverFetch := some "bytes".data,
    coverUpload := some "cover".data,
    contentOutcomes := fun _ => ImgOutcome.success ("m".data), decode := some,
    draftResp := some (some "draft".data),
    publishResp := some ⟨some 0, some "pub".data⟩ }

/-- Witness for C5 at a concrete request missing `title`. -/
theorem claim5_witness :
    publish_article reqNoTitle envAllOk = (Except.error HttpError.badRequest, []) :=
  (claim5_theorem reqNoTitle envAllOk (Or.inr (Or.inr (Or.inl rfl)))).1

/-- Claim C6: for every index whose fetch and upload succeed, every
occurrence of its placeholder is replaced — none survives in the output
HTML — and the substituted text is the fixed constant tag `wechatImgTag`,
whose `src` and `data-src` attributes are empty; the tag does not depend on
the index or on the uploaded media id. -/
theorem claim6_theorem (html : List Char) (results : List (Option (List Char)))
    (i : Nat) (mid : List Char) (hi : results[i]? = some (some mid)) :
    occursL (placeholderL i) (processContentImages html results).1 = false ∧
      occursL (" src=\"\"".data) wechatImgTag = true ∧
      occursL (" data-src=\"\"".data) wechatImgTag = true := by
  refine ⟨?_, by decide, by decide⟩
  have := processGo_removes_at results html 0 i mid hi
  simpa using this

/-- Witness for C6 at a concrete successful index. -/
theorem claim6_witness :
    occursL (placeholderL 0)
      (processContentImages ("\x7bimage0\x7d".data) [some "M".data]).1 = false :=
  (claim6_theorem ("\x7bimage0\x7d".data) [some "M".data] 0 ("M".data) (by decide)).1

/-- Claim C7: `publish_draft` succeeds exactly when a response arrives with
`errcode == 0`; it then returns the response's `publish_id`, defaulting to
the success marker when absent.  A transport error or any other `errcode`
yields the publish-stage error. -/
theorem claim7_theorem (resp : Option PublishResp) :
    ((∃ v, publish_draft resp = Except.ok v) ↔
        ∃ r, resp = some r ∧ r.errcode = some 0) ∧
      (∀ r, resp = some r → r.errcode = some 0 →
        publish_draft resp = Except.ok (r.publish_id.getD publishSuccessMarker)) ∧
      ((∀ r, resp = some r → r.errcode ≠ some 0) →
        publish_draft resp = Except.error StageErr.publishError) := by
  rcases resp with _ | r
  · refine ⟨?_, ?_, ?_⟩
    · simp [publish_draft]
    · intro r h
      exact absurd h (by simp)
    · intro _
      rfl
  · by_cases h0 : r.errcode = some 0
    · refine ⟨?_, ?_, ?_⟩
      · simp [publish_draft, h0]
      · intro r' hr' h'
        obtain rfl : r = r' := Option.some.inj hr'
        simp [publish_draft, h0]
      · intro hall
        exact absurd h0 (hall r rfl)
    · refine ⟨?_, ?_, ?_⟩
      · constructor
        · rintro ⟨v, hv⟩
          simp [publish_draft, h0] at hv
        · rintro ⟨r', hr', h0'⟩
          obtain rfl : r = r' := Option.some.inj hr'
          exact absurd h0' h0
      · intro r' hr' h'
        obtain rfl : r = r' := Option.some.inj hr'
        exact absurd h' h0
      · intro _
        simp [publish_draft, h0]

/-- Witness for C7: `errcode = 0` with `publish_id` absent returns the
default success marker. -/
theorem claim7_witness :
    publish_draft (some ⟨some 0, none⟩) = Except.ok publishSuccessMarker :=
  (claim7_theorem (some ⟨some 0, none⟩)).2.1 ⟨some 0, none⟩ rfl rfl

/-- Claim C8: when token acquisition fails, the handler fails with the
500-class auth error and the call trace is exactly the single token call —
no image fetch, upload, draft or publish call occurs. -/
theorem claim8_theorem (req : ReqData) (env : Env)
    (hreq : requiredPresent req = true) (htok : env.token = none) :
    publish_article req env =
      (Except.error (HttpError.internalError StageErr.authError), [Call.tokenCall]) := by
  unfold publish_article
  rw [if_pos hreq, htok]

/-- A fully-populated request. -/
def reqAllPresent : ReqData :=
  { APP_ID := some "wx".data, APP_SECRET := some "s3".data, title := some "T".data,
    author := some "A".data, content_html := some "<p>hi</p>".data,
    cover_image_url := some "http://x/c.jpg".data,
    content_image_urls := some ["http://x/1.jpg".data] }

/-- An environment whose token endpoint fails while everything downstream
would succeed. -/
def envTokenFail : Env :=
  { token := none, coverFetch := some "b".data, coverUpload := some "cm".data,
    contentOutcomes := fun _ => ImgOutcome.success ("m".data), decode := some,
    draftResp := some (some "d".data), publishResp := some ⟨some 0, some "p".data⟩ }

/-- Witness for C8 at a concrete failing-token environment. -/
theorem claim8_witness :
    publish_article reqAllPresent envTokenFail =
      (Except.error (HttpError.internalError StageErr.authError), [Call.tokenCall]) :=
  claim8_theorem reqAllPresent envTokenFail (by decide) rfl

/-- Claim C9: `create_draft` applies the escape-decoding transform to the
body, the title and the author before submission — the submitted payload
carries exactly the decoded values — and if decoding any of the three
raises, it fails with the draft-stage error without submitting (no payload
is sent). -/
theorem claim9_theorem (decode : List Char → Option (List Char))
    (title author contentHtml thumb : List Char)
    (resp : Option (Option (List Char))) :
    ((decode contentHtml = none ∨ decode title = none ∨ decode author = none) →
        create_draft decode title author contentHtml thumb resp =
          (Except.error StageErr.draftError, none)) ∧
      ∀ pb pt pa, decode contentHtml = some pb → decode title = some pt →
        decode author = some pa →
        (create_draft decode title author contentHtml thumb resp).2 =
          some ⟨pt, pa, pb, thumb, 0, 0, draftSourceUrl⟩ := by
  constructor
  · intro h
    rcases hch : decode contentHtml with _ | pb
    · simp [create_draft, hch]
    · rcases hti : decode title with _ | pt
      · simp [create_draft, hch, hti]
      · rcases hau : decode author with _ | pa
        · simp [create_draft, hch, hti, hau]
        · rcases h with h | h | h <;> simp_all
  · intro pb pt pa hch hti hau
    rcases resp with _ | (_ | m) <;> simp [create_draft, hch, hti, hau]

/-- The always-failing escape decoder. -/
def decodeNone : List Char → Option (List Char) := fun _ => none

/-- Witness for C9: a failing decode yields the draft error with no
submission. -/
theorem claim9_witness :
    create_draft decodeNone ("t".data) ("a".data) ("c".data) ("th".data) none =
      (Except.error StageErr.draftError, none) :=
  (claim9_theorem decodeNone ("t".data) ("a".data) ("c".data) ("th".data) none).1
    (Or.inl rfl)

/-- Claim C10: the loop of `process_content_images` fetches and uploads at
every index regardless of whether the placeholder occurs in the HTML: on
token-free HTML, a successful index leaves the HTML unchanged but the
mapping still gains the entry `image{i} ↦ mediaId`. -/
theorem claim10_theorem (html : List Char) (results : List (Option (List Char)))
    (i : Nat) (mid : List Char) (hi : results[i]? = some (some mid))
    (hno : ∀ N, occursL (placeholderL N) html = false) :
    (processContentImages html results).1 = html ∧
      (keyChars i, mid) ∈ (processContentImages html results).2 := by
  refine ⟨processGo_id results html 0 hno, ?_⟩
  have := processGo_mem results html 0 i mid hi
  simpa using this

/-- Witness for C10 at a concrete token-free input with a successful
upload. -/
theorem claim10_witness :
    (processContentImages ("hello".data) [some "M7".data]).1 = "hello".data ∧
      (keyChars 0, "M7".data) ∈
        (processContentImages ("hello".data) [some "M7".data]).2 :=
  claim10_theorem ("hello".data) [some "M7".data] 0 ("M7".data) (by decide)
    (short_no_placeholder (by decide))
